import Mathlib

/-!
Verification development for the pixel-to-markup encoding engine of
ImageToRichTextConverter (`main.py`, class `ImageProcessorThread`).

The Python encoder walks a pixel buffer row by row, resolves each pixel to a
color token under a transparency policy, merges runs of identical or similar
tokens, and partitions each row's token stream into segments bounded either by
pixel count (`process_pixel_segment`) or by serialized character length
(`process_char_segment_line_safe`).  A preview raster (`update_preview`)
mirrors the colors that were encoded.

The definitions below are a shallow embedding of those methods.  Mutable state
(`current_x`, the open-run variables) is threaded explicitly; the `QThread`
instance fields become a `Config` record; the per-pixel loops become structural
recursion over the remaining pixels of the current row.
-/

namespace ImgRT

/-- Transparency policy: `trans_opt` field (0 = custom background color,
1 = keep transparent, 2 = full-width-space replacement). -/
inductive TransOpt where
  | custom
  | keep
  | space
deriving DecidableEq, Repr

/-- Segmentation rule: `segment_rule` field (0 = by pixel count, 1 = by
character length). -/
inductive SegRule where
  | byPixel
  | byChar
deriving DecidableEq, Repr

/-- One pixel, 8-bit channels.  When the image has no alpha channel the
encoder sets `a = 255` right after reading the pixel (`main.py` lines
258-259 / 368-369), so we carry `a` always; whether alpha "exists" is the
`hasAlpha` flag of the configuration. -/
structure RGBA where
  r : Nat
  g : Nat
  b : Nat
  a : Nat
deriving DecidableEq, Repr

/-- The configuration snapshot taken by `ImageProcessorThread.__init__`,
plus the `has_alpha` flag that `run` derives from the image mode.
`pixelSegmentSize`, `charSegmentSize` and `spaceCountArg` are the raw values
handed to `__init__`; the clamped fields `pixel_limit`, `char_limit` and
`space_count` are the derived functions below. -/
structure Config where
  transOpt : TransOpt
  customColor : String
  fontSize : Nat
  segmentRule : SegRule
  pixelSegmentSize : Int
  charSegmentSize : Int
  minimalColor : Bool
  mergeSimilar : Bool
  similarityThreshold : Nat
  alphaThreshold : Nat
  keepAboveAlpha : Bool
  spaceCountArg : Int
  hasAlpha : Bool
deriving Repr

/-- `self.pixel_limit = max(pixel_segment_size, 1)`. -/
def Config.pixelLimit (c : Config) : Nat := (max c.pixelSegmentSize 1).toNat

/-- `self.char_limit = max(char_segment_size, 1)`. -/
def Config.charLimit (c : Config) : Nat := (max c.charSegmentSize 1).toNat

/-- `self.space_count = max(space_count, 1)`. -/
def Config.spaceCount (c : Config) : Nat := (max c.spaceCountArg 1).toNat

/-- `self.font_start = f'<size={font_size}>' if font_size > 0 else ''`. -/
def Config.fontStart (c : Config) : String :=
  if 0 < c.fontSize then "<size=" ++ toString c.fontSize ++ ">" else ""

/-- `self.font_end = '</size>' if font_size > 0 else ''`. -/
def Config.fontEnd (c : Config) : String :=
  if 0 < c.fontSize then "</size>" else ""

/-- `self.font_tag_len = len(font_start) + len(font_end)`. -/
def Config.fontTagLen (c : Config) : Nat :=
  c.fontStart.length + c.fontEnd.length

/-- Lower-case hex digit of `n < 16` (Python `format(n, 'x')` digit). -/
def hexDigitChar (n : Nat) : Char :=
  if n < 10 then Char.ofNat (48 + n) else Char.ofNat (87 + n)

/-- Python `f'{n:01x}'` for `n ≤ 15` (one lower-case hex digit). -/
def hex1 (n : Nat) : String := String.mk [hexDigitChar (n % 16)]

/-- Python `f'{n:02x}'` for `n ≤ 255` (two lower-case hex digits,
zero-padded). -/
def hex2 (n : Nat) : String :=
  String.mk [hexDigitChar (n / 16 % 16), hexDigitChar (n % 16)]

/-- Value of one hex digit character, as accepted by Python `int(_, 16)`.
(Python's `int` additionally tolerates surrounding whitespace and sign
characters; those never occur in `#RRGGBB` color strings.) -/
def hexVal (c : Char) : Option Nat :=
  if 48 ≤ c.toNat ∧ c.toNat ≤ 57 then some (c.toNat - 48)
  else if 97 ≤ c.toNat ∧ c.toNat ≤ 102 then some (c.toNat - 87)
  else if 65 ≤ c.toNat ∧ c.toNat ≤ 70 then some (c.toNat - 55)
  else none

/-- Python `int(s, 16)` on a two-character slice; `none` models the
`ValueError` caught by the surrounding `try`. -/
def parseHexPair (s : String) : Option Nat :=
  match s.toList with
  | [c1, c2] =>
    match hexVal c1, hexVal c2 with
    | some h, some l => some (16 * h + l)
    | _, _ => none
  | _ => none

/-- Python slice `s[i:j]`. -/
def strSlice (s : String) (i j : Nat) : String :=
  String.mk ((s.toList.drop i).take (j - i))

/-- `'█' * n`: the filler glyph repeated. -/
def glyphs (n : Nat) : String := String.mk (List.replicate n '█')

/-- `'　' * n`: the full-width space repeated. -/
def spaces (n : Nat) : String := String.mk (List.replicate n '　')

/-- `are_colors_similar` (`main.py` 135-153).  The tuples compared always
come from pixels of the same image, so they are both length 4 exactly when
the image has an alpha channel. -/
def are_colors_similar (cfg : Config) (c1 c2 : RGBA) : Bool :=
  cfg.mergeSimilar &&
    decide (Nat.dist c1.r c2.r + Nat.dist c1.g c2.g + Nat.dist c1.b c2.b +
      (if cfg.hasAlpha then Nat.dist c1.a c2.a else 0) ≤ cfg.similarityThreshold)

/-- `get_simplified_color` (`main.py` 155-163). -/
def get_simplified_color (cfg : Config) (r g b : Nat) : Nat × Nat × Nat :=
  if cfg.minimalColor then (r / 16 * 16, g / 16 * 16, b / 16 * 16) else (r, g, b)

/-- Shared tail of `get_original_color_tag`: the RGB-only tag (alpha channel
dropped / absent), `main.py` 199-202 and 205-208. -/
def rgbOnlyTag (cfg : Config) (r g b : Nat) : String :=
  if cfg.minimalColor then
    "<color=#" ++ hex1 (r / 16) ++ hex1 (g / 16) ++ hex1 (b / 16) ++ ">"
  else
    "<color=#" ++ hex2 r ++ hex2 g ++ hex2 b ++ ">"

/-- `get_original_color_tag` (`main.py` 165-208). -/
def get_original_color_tag (cfg : Config) (r g b a : Nat) : String :=
  if cfg.transOpt = .keep ∧ (cfg.hasAlpha && decide (a < cfg.alphaThreshold)) = true then
    "<color=#0000>"
  else if (cfg.hasAlpha && decide (a = 0)) = true then
    (if cfg.minimalColor then
      "<color=#" ++ hex1 (r / 16) ++ hex1 (g / 16) ++ hex1 (b / 16) ++ "0>"
    else
      "<color=#" ++ hex2 r ++ hex2 g ++ hex2 b ++ "00>")
  else if 0 < a ∧ a < 255 then
    (if cfg.keepAboveAlpha then
      (if cfg.minimalColor then
        "<color=#" ++ hex1 (r / 16) ++ hex1 (g / 16) ++ hex1 (b / 16) ++ hex1 (a / 16) ++ ">"
      else
        "<color=#" ++ hex2 r ++ hex2 g ++ hex2 b ++ hex2 a ++ ">")
    else rgbOnlyTag cfg r g b)
  else rgbOnlyTag cfg r g b

/-- `get_custom_color_tag` (`main.py` 210-239).  The Python `len == 4`
branch and the final `else` branch emit the same pass-through tag and are
merged; `none` from `parseHexPair` lands in the `except` branch. -/
def get_custom_color_tag (cfg : Config) : String :=
  if cfg.minimalColor then
    if cfg.customColor.length = 7 then
      match parseHexPair (strSlice cfg.customColor 1 3),
            parseHexPair (strSlice cfg.customColor 3 5),
            parseHexPair (strSlice cfg.customColor 5 7) with
      | some r2, some g2, some b2 =>
        "<color=#" ++ hex1 (r2 / 16) ++ hex1 (g2 / 16) ++ hex1 (b2 / 16) ++ ">"
      | _, _, _ => "<color=" ++ cfg.customColor ++ ">"
    else "<color=" ++ cfg.customColor ++ ">"
  else "<color=" ++ cfg.customColor ++ ">"

/-- `is_transparent = self.has_alpha and a < self.alpha_threshold`
(`main.py` 263 / 373). -/
def isTransparentPix (cfg : Config) (p : RGBA) : Bool :=
  cfg.hasAlpha && decide (p.a < cfg.alphaThreshold)

/-- The per-pixel token (`color_tag` in both segment builders, `main.py`
265-275 / 375-385): `none` is the blank token of the space-replacement
policy, `some t` a markup color tag. -/
def resolveTag (cfg : Config) (p : RGBA) : Option String :=
  if isTransparentPix cfg p then
    match cfg.transOpt with
    | .space => none
    | .keep => some (get_original_color_tag cfg p.r p.g p.b p.a)
    | .custom => some (get_custom_color_tag cfg)
  else some (get_original_color_tag cfg p.r p.g p.b p.a)

/-- The run-merge test used identically in both builders (`main.py` 278-281,
314-317, 387-391): the new token equals the open run's token, or the run is
open (`current_color_tag is not None`) and the new pixel is similar to the
run's representative color.  `curRgba` is `none` only when `curTag` is
`none`, mirroring line 327/401. -/
def mergesInto (cfg : Config) (curTag : Option String) (curRgba : Option RGBA)
    (p : RGBA) (tag : Option String) : Bool :=
  (tag == curTag) ||
    (curTag.isSome &&
      (match curRgba with
       | some c => are_colors_similar cfg c p
       | none => false))

/-- Closing a color block or space block: `main.py` 320-324, 337-340 (char
builder, gate `pixel_count_in_seg > 0`) and 394-398, 415-419 (pixel builder,
gate `color_pixel_count > 0`). -/
def closeRun (cfg : Config) (curTag : Option String) (curCnt gate : Nat) : String :=
  match curTag with
  | some t => t ++ glyphs curCnt ++ "</color>"
  | none =>
    if cfg.transOpt = .space ∧ 0 < gate then spaces (curCnt * cfg.spaceCount)
    else ""

/-- `add_char_count` of the char builder (`main.py` 282-297). -/
def charAddCost (cfg : Config) (merging isT : Bool) (tag : Option String) : Nat :=
  if merging then
    (if isT && decide (cfg.transOpt = .space) then cfg.spaceCount else 1)
  else if isT && decide (cfg.transOpt = .space) then cfg.spaceCount
  else
    match tag with
    | some t => t.length + 1 + "</color>".length
    | none => 1

/-- Text force-emitted for a first pixel that already exceeds the char limit
(`main.py` 303-306). -/
def forcedText (cfg : Config) (isT : Bool) (tag : Option String) : String :=
  if isT && decide (cfg.transOpt = .space) then spaces cfg.spaceCount
  else
    match tag with
    | some t => t ++ "█" ++ "</color>"
    | none => "█"

/-- The pixel loop of `process_char_segment_line_safe` (`main.py` 252-334)
on the remaining pixels of the current row.  Arguments mirror the local
state: running character count, open-run tag, open-run pixel count, open-run
representative color, pixels committed to this segment.  Returns the text
appended after `font_start` and the final `pixel_count_in_seg`.  On forced
overflow the code appends `font_end` (line 307), breaks, and then the
post-loop close (337-342) runs once more with `pixel_count_in_seg = 1`,
which is why `font_end` appears twice on that path. -/
def charSegLoop (cfg : Config) :
    List RGBA → Nat → Option String → Nat → Option RGBA → Nat → String × Nat
  | [], _, ct, cn, _, pc => (closeRun cfg ct cn pc ++ cfg.fontEnd, pc)
  | p :: rest, cc, ct, cn, cr, pc =>
    let isT := isTransparentPix cfg p
    let tag := resolveTag cfg p
    let merging := mergesInto cfg ct cr p tag
    let add := charAddCost cfg merging isT tag
    if cfg.charLimit < cc + add then
      if pc = 0 then
        (forcedText cfg isT tag ++ cfg.fontEnd ++ closeRun cfg ct cn 1 ++ cfg.fontEnd, 1)
      else (closeRun cfg ct cn pc ++ cfg.fontEnd, pc)
    else if merging then
      charSegLoop cfg rest (cc + add) ct (cn + 1) cr (pc + 1)
    else
      let res := charSegLoop cfg rest (cc + add) tag 1
        (if tag.isSome then some p else none) (pc + 1)
      (closeRun cfg ct cn pc ++ res.1, res.2)

/-- `process_char_segment_line_safe` (`main.py` 241-347) on the remaining
pixels of the current row: segment text and `pixel_count_in_seg`. -/
def process_char_segment_line_safe (cfg : Config) (rest : List RGBA) : String × Nat :=
  let res := charSegLoop cfg rest cfg.fontTagLen none 0 none 0
  (cfg.fontStart ++ res.1, res.2)

/-- The pixel loop of `process_pixel_segment` (`main.py` 358-413) on the
remaining pixels of the current row.  The `current_y < img_h` conjunct of
the loop guard is invariantly true while a row is being processed and is
omitted.  Returns the text appended after `font_start` and the final
`current_pixel_count`. -/
def pixelSegLoop (cfg : Config) :
    List RGBA → Nat → Option String → Nat → Option RGBA → String × Nat
  | [], cnt, ct, cn, _ => (closeRun cfg ct cn cn ++ cfg.fontEnd, cnt)
  | p :: rest, cnt, ct, cn, cr =>
    if cnt < cfg.pixelLimit then
      let tag := resolveTag cfg p
      if mergesInto cfg ct cr p tag then
        pixelSegLoop cfg rest (cnt + 1) ct (cn + 1) cr
      else
        let res := pixelSegLoop cfg rest (cnt + 1) tag 1
          (if tag.isSome then some p else none)
        (closeRun cfg ct cn cn ++ res.1, res.2)
    else (closeRun cfg ct cn cn ++ cfg.fontEnd, cnt)

/-- `process_pixel_segment` (`main.py` 349-423) on the remaining pixels of
the current row: segment text and pixel count. -/
def process_pixel_segment (cfg : Config) (rest : List RGBA) : String × Nat :=
  let res := pixelSegLoop cfg rest 0 none 0 none
  (cfg.fontStart ++ res.1, res.2)

/-- One segment-builder invocation, dispatched on `segment_rule`
(`main.py` 98-102). -/
def buildSeg (cfg : Config) (rest : List RGBA) : String × Nat :=
  match cfg.segmentRule with
  | .byPixel => process_pixel_segment cfg rest
  | .byChar => process_char_segment_line_safe cfg rest

/-- An emitted segment together with the bookkeeping `run` keeps for it:
the 1-based row number (`current_line`), the 1-based ordinal within the row
(`line_segment_counter`), the column at which the segment started
(`current_x` on entry to the builder), its pixel count and its text. -/
structure Segment where
  row : Nat
  ordinal : Nat
  startX : Nat
  pixelCount : Nat
  text : String
deriving DecidableEq, Repr

/-- The inner `while self.current_x < self.img_w` loop of `run` (`main.py`
93-112) for one row.  `fuel` bounds the iteration count; every builder call
on a nonempty remainder consumes at least one pixel (proved below), so
`fuel = row length` always suffices.  A segment is appended only when its
text is truthy (`if segment:` line 104). -/
def rowLoopF (cfg : Config) : Nat → Nat → Nat → Nat → List RGBA → List Segment
  | _, _, _, _, [] => []
  | 0, _, _, _, _ :: _ => []
  | fuel + 1, y, x, k, p :: rest =>
    let res := buildSeg cfg (p :: rest)
    let segs := rowLoopF cfg fuel y (x + res.2) (k + 1) ((p :: rest).drop res.2)
    if res.1 = "" then segs
    else { row := y, ordinal := k, startX := x, pixelCount := res.2, text := res.1 } :: segs

/-- All segments of one row (row number `y`, 1-based as in `current_line`). -/
def processRow (cfg : Config) (y : Nat) (row : List RGBA) : List Segment :=
  rowLoopF cfg row.length y 0 1 row

/-- The outer row loop of `run` (`main.py` 87-124): rows in order, 1-based
row numbers. -/
def gridLoop (cfg : Config) : Nat → List (List RGBA) → List Segment
  | _, [] => []
  | y, row :: rows => processRow cfg y row ++ gridLoop cfg (y + 1) rows

/-- Result of one encoding pass: the ordered segment list and
`total_processed_pixels` (summed exactly over the appended segments,
`main.py` 104-108). -/
structure EncodeResult where
  segments : List Segment
  total : Nat
deriving DecidableEq, Repr

/-- One full encoding pass of `run` over a pixel grid (list of rows). -/
def encodeGrid (cfg : Config) (grid : List (List RGBA)) : EncodeResult :=
  let segs := gridLoop cfg 1 grid
  { segments := segs, total := (segs.map Segment.pixelCount).sum }

/-- The value a `QColor` call writes into the preview raster: either
explicit channels, or a Qt color-name lookup `QColor(custom_color)`
(`main.py` 451/453). -/
inductive PreviewWrite where
  | rgba (r g b a : Nat)
  | named (s : String)
deriving DecidableEq, Repr

/-- The custom-background branch of `update_preview` (`main.py` 443-453). -/
def customPreviewColor (cfg : Config) : PreviewWrite :=
  if cfg.minimalColor ∧ cfg.customColor.length = 7 then
    match parseHexPair (strSlice cfg.customColor 1 3),
          parseHexPair (strSlice cfg.customColor 3 5),
          parseHexPair (strSlice cfg.customColor 5 7) with
    | some cr, some cg, some cb =>
      .rgba (cr / 16 * 16) (cg / 16 * 16) (cb / 16 * 16) 255
    | _, _, _ => .named cfg.customColor
  else .named cfg.customColor

/-- `update_preview` (`main.py` 425-469): the color written for pixel
`(r,g,b,a)` given the open run's representative color `ccr`
(`current_color_rgba`; `none` when no run is open or the run is blank). -/
def update_preview (cfg : Config) (r g b a : Nat) (ccr : Option RGBA) : PreviewWrite :=
  let isT := cfg.hasAlpha && decide (a < cfg.alphaThreshold)
  if cfg.hasAlpha && decide (a = 0) then .rgba r g b 0
  else
    let a2 := if (!cfg.keepAboveAlpha) && cfg.hasAlpha && decide (cfg.alphaThreshold < a)
      then 255 else a
    if isT then
      match cfg.transOpt with
      | .keep => .rgba 0 0 0 0
      | .custom => customPreviewColor cfg
      | .space => .rgba 0 0 0 0
    else
      match cfg.mergeSimilar, ccr with
      | true, some c =>
        let s := get_simplified_color cfg c.r c.g c.b
        let sa := if cfg.hasAlpha then c.a else 255
        let sa2 := if (!cfg.keepAboveAlpha) && cfg.hasAlpha && decide (cfg.alphaThreshold < sa)
          then 255 else sa
        .rgba s.1 s.2.1 s.2.2 sa2
      | _, _ =>
        let s := get_simplified_color cfg r g b
        .rgba s.1 s.2.1 s.2.2 a2

/-- Alpha channel of a preview write, when it used explicit channels. -/
def writtenAlpha : PreviewWrite → Option Nat
  | .rgba _ _ _ a => some a
  | .named _ => none

/-- Cells (columns) covered by a segment list, in emission order. -/
def coveredCells (segs : List Segment) : List Nat :=
  (segs.map fun s => List.range' s.startX s.pixelCount).flatten

/-- Row numbers of a segment list, in emission order. -/
def rowsOf (segs : List Segment) : List Nat := segs.map Segment.row

/-- Ordinals of a segment list, in emission order. -/
def ordinalsOf (segs : List Segment) : List Nat := segs.map Segment.ordinal

/-- Boolean form of the `ByCharLength` budget: a segment respects the char
budget unless it is a forced single pixel. -/
def charBudgetOk (cfg : Config) (s : Segment) : Bool :=
  decide (s.pixelCount ≤ 1) || decide (s.text.length ≤ cfg.charLimit)

/-- Two pixels that an observer of the segment list may not distinguish
under C10's hypothesis: equal alpha, and fully equal whenever the alpha is
at or above the threshold (below threshold the RGB components are free). -/
def SameVisible (cfg : Config) (p q : RGBA) : Prop :=
  p.a = q.a ∧ (cfg.alphaThreshold ≤ p.a → p = q)

/-- Boolean form of the `ByPixelCount` budget. -/
def pixelBudgetOk (cfg : Config) (s : Segment) : Bool :=
  decide (s.pixelCount ≤ cfg.pixelLimit)

/-! ### Concrete configurations and pixels used to instantiate the results -/

/-- A representative configuration: space-replacement policy, no merging,
pixel rule, alpha image, all GUI defaults. -/
def baseCfg : Config :=
  { transOpt := .space, customColor := "#888888", fontSize := 0,
    segmentRule := .byPixel, pixelSegmentSize := 40, charSegmentSize := 1000,
    minimalColor := false, mergeSimilar := false, similarityThreshold := 10,
    alphaThreshold := 128, keepAboveAlpha := true, spaceCountArg := 1,
    hasAlpha := true }

/-- Like `baseCfg` but with similar-color merging enabled. -/
def cfgC2 : Config :=
  { baseCfg with mergeSimilar := true }

/-- Like `baseCfg` but segmenting by character length. -/
def cfgC3 : Config :=
  { baseCfg with segmentRule := .byChar }

/-- Like `baseCfg` but dropping above-threshold alpha. -/
def cfgC4 : Config :=
  { baseCfg with keepAboveAlpha := false }

/-- Like `baseCfg` but with the custom-background transparency policy. -/
def cfgC5 : Config :=
  { baseCfg with transOpt := .custom }

/-- Like `baseCfg` but with a pixel limit of 2. -/
def cfgC7 : Config :=
  { baseCfg with pixelSegmentSize := 2 }

/-- Minimal-color configuration whose custom color is already `#RGB`. -/
def cfgC9 : Config :=
  { baseCfg with
    minimalColor := true
    customColor := "#abc" }

/-- A fully opaque red pixel. -/
def pixRed : RGBA := ⟨255, 0, 0, 255⟩

/-- An almost-transparent pixel exactly at the default alpha threshold. -/
def pixC2a : RGBA := ⟨0, 0, 0, 128⟩

/-- A below-threshold pixel one alpha step under `pixC2a`. -/
def pixC2b : RGBA := ⟨0, 0, 0, 127⟩

/-- A fully transparent pixel with one set of RGB values. -/
def pixC10a : RGBA := ⟨5, 5, 5, 0⟩

/-- A fully transparent pixel with different RGB values. -/
def pixC10b : RGBA := ⟨9, 9, 9, 0⟩

/-! ### Basic facts about the clamped limits and string helpers -/

theorem Config.pixelLimit_pos (c : Config) : 1 ≤ c.pixelLimit := by
  simp [Config.pixelLimit]

theorem Config.charLimit_pos (c : Config) : 1 ≤ c.charLimit := by
  simp [Config.charLimit]

theorem Config.spaceCount_pos (c : Config) : 1 ≤ c.spaceCount := by
  simp [Config.spaceCount]

theorem length_mk (l : List Char) : (String.mk l).length = l.length := rfl

theorem glyphs_length (n : Nat) : (glyphs n).length = n := by
  simp [glyphs, length_mk]

theorem spaces_length (n : Nat) : (spaces n).length = n := by
  simp [spaces, length_mk]

theorem str_ne_empty_of_len_pos {s : String} (h : 0 < s.length) : s ≠ "" := by
  intro he
  rw [he] at h
  simp at h

theorem closeRun_some_length (cfg : Config) (t : String) (cn g : Nat) :
    (closeRun cfg (some t) cn g).length = t.length + cn + 8 := by
  simp [closeRun, String.length_append, glyphs_length]
  rfl

theorem closeRun_none_length (cfg : Config) (cn g : Nat) (hg : 0 < g) :
    (closeRun cfg none cn g).length =
      if cfg.transOpt = .space then cn * cfg.spaceCount else 0 := by
  by_cases h : cfg.transOpt = .space <;> simp [closeRun, h, hg, spaces_length]

theorem closeRun_gate_zero (cfg : Config) (cn : Nat) :
    closeRun cfg none cn 0 = "" := by
  simp [closeRun]

/-! ### The token resolver -/

theorem resolveTag_eq_none_iff (cfg : Config) (p : RGBA) :
    resolveTag cfg p = none ↔
      isTransparentPix cfg p = true ∧ cfg.transOpt = .space := by
  unfold resolveTag
  by_cases h : isTransparentPix cfg p
  · cases ho : cfg.transOpt <;> simp [h, ho]
  · simp [h]

theorem mergesInto_none_left (cfg : Config) (cr : Option RGBA) (p : RGBA)
    (t : Option String) : mergesInto cfg none cr p t = (t == none) := by
  simp [mergesInto]

theorem mergesInto_not_similar (cfg : Config) (hms : cfg.mergeSimilar = false)
    (ct : Option String) (cr : Option RGBA) (p : RGBA) (t : Option String) :
    mergesInto cfg ct cr p t = (t == ct) := by
  cases cr <;> simp [mergesInto, are_colors_similar, hms]

theorem charAddCost_pos (cfg : Config) (merging isT : Bool) (tag : Option String) :
    1 ≤ charAddCost cfg merging isT tag := by
  have hsc := cfg.spaceCount_pos
  unfold charAddCost
  cases tag <;> by_cases hm : merging = true <;>
    by_cases ht : (isT && decide (cfg.transOpt = .space)) = true <;>
      simp [hm, ht] <;> omega

/-! ### Pixel counts returned by the builders -/

theorem charSegLoop_snd_ge (cfg : Config) :
    ∀ (rest : List RGBA) (cc : Nat) (ct : Option String) (cn : Nat)
      (cr : Option RGBA) (pc : Nat),
      pc ≤ (charSegLoop cfg rest cc ct cn cr pc).2
  | [], cc, ct, cn, cr, pc => le_refl _
  | p :: rest, cc, ct, cn, cr, pc => by
    simp only [charSegLoop]
    split
    · split <;> simp <;> omega
    · split
      · exact le_trans (Nat.le_succ pc) (charSegLoop_snd_ge cfg rest _ ct (cn + 1) cr (pc + 1))
      · have := charSegLoop_snd_ge cfg rest
          (cc + charAddCost cfg (mergesInto cfg ct cr p (resolveTag cfg p))
            (isTransparentPix cfg p) (resolveTag cfg p))
          (resolveTag cfg p) 1
          (if (resolveTag cfg p).isSome then some p else none) (pc + 1)
        simp only []
        omega

theorem charSegLoop_snd_le (cfg : Config) :
    ∀ (rest : List RGBA) (cc : Nat) (ct : Option String) (cn : Nat)
      (cr : Option RGBA) (pc : Nat),
      (charSegLoop cfg rest cc ct cn cr pc).2 ≤ pc + rest.length
  | [], cc, ct, cn, cr, pc => by simp [charSegLoop]
  | p :: rest, cc, ct, cn, cr, pc => by
    simp only [charSegLoop, List.length_cons]
    split
    · split <;> simp <;> omega
    · split
      · have := charSegLoop_snd_le cfg rest
          (cc + charAddCost cfg (mergesInto cfg ct cr p (resolveTag cfg p))
            (isTransparentPix cfg p) (resolveTag cfg p)) ct (cn + 1) cr (pc + 1)
        omega
      · have := charSegLoop_snd_le cfg rest
          (cc + charAddCost cfg (mergesInto cfg ct cr p (resolveTag cfg p))
            (isTransparentPix cfg p) (resolveTag cfg p))
          (resolveTag cfg p) 1
          (if (resolveTag cfg p).isSome then some p else none) (pc + 1)
        simp only []
        omega

theorem pixelSegLoop_snd_ge (cfg : Config) :
    ∀ (rest : List RGBA) (cnt : Nat) (ct : Option String) (cn : Nat)
      (cr : Option RGBA),
      cnt ≤ (pixelSegLoop cfg rest cnt ct cn cr).2
  | [], cnt, ct, cn, cr => le_refl _
  | p :: rest, cnt, ct, cn, cr => by
    simp only [pixelSegLoop]
    split
    · split
      · exact le_trans (Nat.le_succ cnt) (pixelSegLoop_snd_ge cfg rest (cnt + 1) ct (cn + 1) cr)
      · have := pixelSegLoop_snd_ge cfg rest (cnt + 1) (resolveTag cfg p) 1
          (if (resolveTag cfg p).isSome then some p else none)
        simp only []
        omega
    · exact le_refl _

theorem pixelSegLoop_snd_le (cfg : Config) :
    ∀ (rest : List RGBA) (cnt : Nat) (ct : Option String) (cn : Nat)
      (cr : Option RGBA),
      (pixelSegLoop cfg rest cnt ct cn cr).2 ≤ cnt + rest.length
  | [], cnt, ct, cn, cr => by simp [pixelSegLoop]
  | p :: rest, cnt, ct, cn, cr => by
    simp only [pixelSegLoop, List.length_cons]
    split
    · split
      · have := pixelSegLoop_snd_le cfg rest (cnt + 1) ct (cn + 1) cr
        omega
      · have := pixelSegLoop_snd_le cfg rest (cnt + 1) (resolveTag cfg p) 1
          (if (resolveTag cfg p).isSome then some p else none)
        simp only []
        omega
    · simp

theorem pixelSegLoop_snd_le_limit (cfg : Config) :
    ∀ (rest : List RGBA) (cnt : Nat) (ct : Option String) (cn : Nat)
      (cr : Option RGBA),
      cnt ≤ cfg.pixelLimit → (pixelSegLoop cfg rest cnt ct cn cr).2 ≤ cfg.pixelLimit
  | [], cnt, ct, cn, cr, h => h
  | p :: rest, cnt, ct, cn, cr, h => by
    simp only [pixelSegLoop]
    split
    · split
      · exact pixelSegLoop_snd_le_limit cfg rest (cnt + 1) ct (cn + 1) cr (by omega)
      · have := pixelSegLoop_snd_le_limit cfg rest (cnt + 1) (resolveTag cfg p) 1
          (if (resolveTag cfg p).isSome then some p else none) (by omega)
        simp only []
        omega
    · exact h

/-! ### Emitted segment text is never empty -/

theorem forcedText_len_pos (cfg : Config) (isT : Bool) (tag : Option String) :
    1 ≤ (forcedText cfg isT tag).length := by
  unfold forcedText
  split
  · rw [spaces_length]
    exact cfg.spaceCount_pos
  · have h1 : "█".length = 1 := rfl
    cases tag <;> simp only [String.length_append] <;> omega

theorem charSegLoop_fst_len_pos (cfg : Config) :
    ∀ (rest : List RGBA) (cc : Nat) (ct : Option String) (cn : Nat)
      (cr : Option RGBA) (pc : Nat),
      1 ≤ pc → 1 ≤ cn → (ct = none → cfg.transOpt = .space) →
      1 ≤ ((charSegLoop cfg rest cc ct cn cr pc).1).length
  | [], cc, ct, cn, cr, pc, hpc, hcn, hct => by
    cases ct with
    | some t =>
      simp only [charSegLoop, String.length_append, closeRun_some_length]
      omega
    | none =>
      simp only [charSegLoop, String.length_append,
        closeRun_none_length cfg cn pc hpc, hct rfl, if_pos]
      have h1 : 0 < cn * cfg.spaceCount :=
        Nat.mul_pos (by omega) (by have := cfg.spaceCount_pos; omega)
      omega
  | p :: rest, cc, ct, cn, cr, pc, hpc, hcn, hct => by
    simp only [charSegLoop]
    split
    · split
      · omega
      · cases ct with
        | some t =>
          simp only [String.length_append, closeRun_some_length]
          omega
        | none =>
          simp only [String.length_append, closeRun_none_length cfg cn pc hpc, hct rfl, if_pos]
          have h1 : 0 < cn * cfg.spaceCount :=
            Nat.mul_pos (by omega) (by have := cfg.spaceCount_pos; omega)
          omega
    · split
      · exact charSegLoop_fst_len_pos cfg rest _ ct (cn + 1) cr (pc + 1)
          (by omega) (by omega) hct
      · have hres := charSegLoop_fst_len_pos cfg rest
          (cc + charAddCost cfg (mergesInto cfg ct cr p (resolveTag cfg p))
            (isTransparentPix cfg p) (resolveTag cfg p))
          (resolveTag cfg p) 1
          (if (resolveTag cfg p).isSome then some p else none) (pc + 1)
          (by omega) (by omega)
          (fun hn => ((resolveTag_eq_none_iff cfg p).mp hn).2)
        simp only [String.length_append]
        omega

theorem process_char_fst_len_pos (cfg : Config) (p : RGBA) (rest : List RGBA) :
    1 ≤ ((process_char_segment_line_safe cfg (p :: rest)).1).length := by
  unfold process_char_segment_line_safe
  simp only [String.length_append]
  have hmain : 1 ≤ ((charSegLoop cfg (p :: rest) cfg.fontTagLen none 0 none 0).1).length := by
    simp only [charSegLoop, Nat.zero_add]
    split
    · have := forcedText_len_pos cfg (isTransparentPix cfg p) (resolveTag cfg p)
      simp only [if_pos, String.length_append]
      omega
    · split
      · rename_i hmerge
        have htag : resolveTag cfg p = none := by
          rw [mergesInto_none_left] at hmerge
          simpa using hmerge
        exact charSegLoop_fst_len_pos cfg rest _ none 1 none 1 (by omega) (by omega)
          (fun _ => ((resolveTag_eq_none_iff cfg p).mp htag).2)
      · have hres := charSegLoop_fst_len_pos cfg rest
          (cfg.fontTagLen + charAddCost cfg
            (mergesInto cfg none none p (resolveTag cfg p))
            (isTransparentPix cfg p) (resolveTag cfg p))
          (resolveTag cfg p) 1
          (if (resolveTag cfg p).isSome then some p else none) 1
          (by omega) (by omega)
          (fun hn => ((resolveTag_eq_none_iff cfg p).mp hn).2)
        simp only [String.length_append]
        omega
  omega

theorem pixelSegLoop_fst_len_pos (cfg : Config) :
    ∀ (rest : List RGBA) (cnt : Nat) (ct : Option String) (cn : Nat)
      (cr : Option RGBA),
      1 ≤ cn → (ct = none → cfg.transOpt = .space) →
      1 ≤ ((pixelSegLoop cfg rest cnt ct cn cr).1).length
  | [], cnt, ct, cn, cr, hcn, hct => by
    cases ct with
    | some t =>
      simp only [pixelSegLoop, String.length_append, closeRun_some_length]
      omega
    | none =>
      simp only [pixelSegLoop, String.length_append,
        closeRun_none_length cfg cn cn hcn, hct rfl, if_pos]
      have h1 : 0 < cn * cfg.spaceCount :=
        Nat.mul_pos (by omega) (by have := cfg.spaceCount_pos; omega)
      omega
  | p :: rest, cnt, ct, cn, cr, hcn, hct => by
    simp only [pixelSegLoop]
    split
    · split
      · exact pixelSegLoop_fst_len_pos cfg rest (cnt + 1) ct (cn + 1) cr (by omega) hct
      · have hres := pixelSegLoop_fst_len_pos cfg rest (cnt + 1) (resolveTag cfg p) 1
          (if (resolveTag cfg p).isSome then some p else none) (by omega)
          (fun hn => ((resolveTag_eq_none_iff cfg p).mp hn).2)
        simp only [String.length_append]
        omega
    · cases ct with
      | some t =>
        simp only [String.length_append, closeRun_some_length]
        omega
      | none =>
        simp only [String.length_append, closeRun_none_length cfg cn cn hcn, hct rfl, if_pos]
        have h1 : 0 < cn * cfg.spaceCount :=
          Nat.mul_pos (by omega) (by have := cfg.spaceCount_pos; omega)
        omega

theorem process_pixel_fst_len_pos (cfg : Config) (p : RGBA) (rest : List RGBA) :
    1 ≤ ((process_pixel_segment cfg (p :: rest)).1).length := by
  unfold process_pixel_segment
  simp only [String.length_append]
  have hmain : 1 ≤ ((pixelSegLoop cfg (p :: rest) 0 none 0 none).1).length := by
    simp only [pixelSegLoop, Nat.zero_add]
    rw [if_pos (by have := cfg.pixelLimit_pos; omega)]
    split
    · rename_i hmerge
      have htag : resolveTag cfg p = none := by
        rw [mergesInto_none_left] at hmerge
        simpa using hmerge
      exact pixelSegLoop_fst_len_pos cfg rest 1 none 1 none (by omega)
        (fun _ => ((resolveTag_eq_none_iff cfg p).mp htag).2)
    · have hres := pixelSegLoop_fst_len_pos cfg rest 1 (resolveTag cfg p) 1
        (if (resolveTag cfg p).isSome then some p else none) (by omega)
        (fun hn => ((resolveTag_eq_none_iff cfg p).mp hn).2)
      simp only [String.length_append]
      omega
  omega

/-! ### One builder invocation: progress, bounds, nonempty text -/

theorem process_char_snd_pos (cfg : Config) (p : RGBA) (rest : List RGBA) :
    1 ≤ (process_char_segment_line_safe cfg (p :: rest)).2 := by
  unfold process_char_segment_line_safe
  simp only [charSegLoop, Nat.zero_add]
  split
  · simp
  · split
    · exact charSegLoop_snd_ge cfg rest _ none 1 none 1
    · exact charSegLoop_snd_ge cfg rest _ _ 1 _ 1

theorem process_pixel_snd_pos (cfg : Config) (p : RGBA) (rest : List RGBA) :
    1 ≤ (process_pixel_segment cfg (p :: rest)).2 := by
  unfold process_pixel_segment
  simp only [pixelSegLoop, Nat.zero_add]
  rw [if_pos (by have := cfg.pixelLimit_pos; omega)]
  split
  · exact pixelSegLoop_snd_ge cfg rest 1 none 1 none
  · exact pixelSegLoop_snd_ge cfg rest 1 _ 1 _

theorem buildSeg_snd_pos (cfg : Config) (p : RGBA) (rest : List RGBA) :
    1 ≤ (buildSeg cfg (p :: rest)).2 := by
  cases h : cfg.segmentRule with
  | byPixel => simpa [buildSeg, h] using process_pixel_snd_pos cfg p rest
  | byChar => simpa [buildSeg, h] using process_char_snd_pos cfg p rest

theorem buildSeg_snd_le (cfg : Config) (rest : List RGBA) :
    (buildSeg cfg rest).2 ≤ rest.length := by
  cases h : cfg.segmentRule with
  | byPixel =>
    simpa [buildSeg, h, process_pixel_segment] using pixelSegLoop_snd_le cfg rest 0 none 0 none
  | byChar =>
    simpa [buildSeg, h, process_char_segment_line_safe] using
      charSegLoop_snd_le cfg rest cfg.fontTagLen none 0 none 0

theorem buildSeg_fst_ne_empty (cfg : Config) (p : RGBA) (rest : List RGBA) :
    (buildSeg cfg (p :: rest)).1 ≠ "" := by
  cases h : cfg.segmentRule with
  | byPixel =>
    simpa [buildSeg, h] using str_ne_empty_of_len_pos (process_pixel_fst_len_pos cfg p rest)
  | byChar =>
    simpa [buildSeg, h] using str_ne_empty_of_len_pos (process_char_fst_len_pos cfg p rest)

/-! ### The row loop: pixel accounting, coverage, ordinals -/

theorem rowLoopF_sum (cfg : Config) :
    ∀ (fuel y x k : Nat) (rest : List RGBA), rest.length ≤ fuel →
      ((rowLoopF cfg fuel y x k rest).map Segment.pixelCount).sum = rest.length
  | fuel, y, x, k, [], _ => by cases fuel <;> simp [rowLoopF]
  | 0, y, x, k, p :: rest, h => by simp at h
  | fuel + 1, y, x, k, p :: rest, h => by
    have h1 := buildSeg_snd_pos cfg p rest
    have h2 := buildSeg_snd_le cfg (p :: rest)
    have hne := buildSeg_fst_ne_empty cfg p rest
    simp only [rowLoopF, if_neg hne, List.map_cons, List.sum_cons]
    have hdrop : ((p :: rest).drop (buildSeg cfg (p :: rest)).2).length ≤ fuel := by
      simp only [List.length_drop, List.length_cons] at *
      omega
    rw [rowLoopF_sum cfg fuel y (x + (buildSeg cfg (p :: rest)).2) (k + 1) _ hdrop]
    simp only [List.length_drop, List.length_cons] at *
    omega

theorem rowLoopF_mem (cfg : Config) :
    ∀ (fuel y x k : Nat) (rest : List RGBA) (seg : Segment),
      seg ∈ rowLoopF cfg fuel y x k rest →
      ∃ (q : RGBA) (rest' : List RGBA),
        seg.text = (buildSeg cfg (q :: rest')).1 ∧
        seg.pixelCount = (buildSeg cfg (q :: rest')).2 ∧ seg.row = y
  | fuel, y, x, k, [], seg, hmem => by cases fuel <;> simp [rowLoopF] at hmem
  | 0, y, x, k, p :: rest, seg, hmem => by simp [rowLoopF] at hmem
  | fuel + 1, y, x, k, p :: rest, seg, hmem => by
    have hne := buildSeg_fst_ne_empty cfg p rest
    simp only [rowLoopF, if_neg hne, List.mem_cons] at hmem
    rcases hmem with heq | hmem
    · exact ⟨p, rest, by rw [heq], by rw [heq], by rw [heq]⟩
    · exact rowLoopF_mem cfg fuel y _ (k + 1) _ seg hmem

theorem rowLoopF_covered (cfg : Config) :
    ∀ (fuel y x k : Nat) (rest : List RGBA), rest.length ≤ fuel →
      coveredCells (rowLoopF cfg fuel y x k rest) = List.range' x rest.length
  | fuel, y, x, k, [], _ => by cases fuel <;> simp [rowLoopF, coveredCells]
  | 0, y, x, k, p :: rest, h => by simp at h
  | fuel + 1, y, x, k, p :: rest, h => by
    have h1 := buildSeg_snd_pos cfg p rest
    have h2 := buildSeg_snd_le cfg (p :: rest)
    have hne := buildSeg_fst_ne_empty cfg p rest
    have hdrop : ((p :: rest).drop (buildSeg cfg (p :: rest)).2).length ≤ fuel := by
      simp only [List.length_drop, List.length_cons] at *
      omega
    simp only [rowLoopF, if_neg hne, coveredCells, List.map_cons, List.flatten_cons]
    have ih := rowLoopF_covered cfg fuel y (x + (buildSeg cfg (p :: rest)).2) (k + 1)
      ((p :: rest).drop (buildSeg cfg (p :: rest)).2) hdrop
    simp only [coveredCells] at ih
    rw [ih, List.length_drop, List.range'_append_1]
    congr 1
    simp only [List.length_cons] at *
    omega

theorem rowLoopF_rows (cfg : Config) :
    ∀ (fuel y x k : Nat) (rest : List RGBA),
      rowsOf (rowLoopF cfg fuel y x k rest) =
        List.replicate (rowLoopF cfg fuel y x k rest).length y
  | fuel, y, x, k, [] => by cases fuel <;> simp [rowLoopF, rowsOf]
  | 0, y, x, k, p :: rest => by simp [rowLoopF, rowsOf]
  | fuel + 1, y, x, k, p :: rest => by
    simp only [rowLoopF]
    split
    · exact rowLoopF_rows cfg fuel y _ (k + 1) _
    · have ih := rowLoopF_rows cfg fuel y (x + (buildSeg cfg (p :: rest)).2) (k + 1)
        ((p :: rest).drop (buildSeg cfg (p :: rest)).2)
      simp only [rowsOf, List.map_cons, List.length_cons, List.replicate_succ] at *
      rw [ih]

theorem rowLoopF_ordinals (cfg : Config) :
    ∀ (fuel y x k : Nat) (rest : List RGBA), rest.length ≤ fuel →
      ordinalsOf (rowLoopF cfg fuel y x k rest) =
        List.range' k (rowLoopF cfg fuel y x k rest).length
  | fuel, y, x, k, [], _ => by cases fuel <;> simp [rowLoopF, ordinalsOf]
  | 0, y, x, k, p :: rest, h => by simp at h
  | fuel + 1, y, x, k, p :: rest, h => by
    have h1 := buildSeg_snd_pos cfg p rest
    have h2 := buildSeg_snd_le cfg (p :: rest)
    have hne := buildSeg_fst_ne_empty cfg p rest
    have hdrop : ((p :: rest).drop (buildSeg cfg (p :: rest)).2).length ≤ fuel := by
      simp only [List.length_drop, List.length_cons] at *
      omega
    have ih := rowLoopF_ordinals cfg fuel y (x + (buildSeg cfg (p :: rest)).2) (k + 1)
      ((p :: rest).drop (buildSeg cfg (p :: rest)).2) hdrop
    simp only [rowLoopF, if_neg hne, ordinalsOf, List.map_cons, List.length_cons,
      List.range'_succ] at *
    rw [ih]

/-! ### The grid loop -/

theorem gridLoop_sum (cfg : Config) :
    ∀ (y : Nat) (grid : List (List RGBA)),
      ((gridLoop cfg y grid).map Segment.pixelCount).sum = (grid.map List.length).sum
  | y, [] => by simp [gridLoop]
  | y, row :: rows => by
    simp only [gridLoop, processRow, List.map_append, List.sum_append, List.map_cons,
      List.sum_cons]
    rw [rowLoopF_sum cfg row.length y 0 1 row (le_refl _)]
    rw [gridLoop_sum cfg (y + 1) rows]

theorem gridLoop_mem (cfg : Config) :
    ∀ (y : Nat) (grid : List (List RGBA)) (seg : Segment),
      seg ∈ gridLoop cfg y grid →
      ∃ (q : RGBA) (rest' : List RGBA),
        seg.text = (buildSeg cfg (q :: rest')).1 ∧
        seg.pixelCount = (buildSeg cfg (q :: rest')).2
  | y, [], seg, hmem => by simp [gridLoop] at hmem
  | y, row :: rows, seg, hmem => by
    simp only [gridLoop, List.mem_append] at hmem
    rcases hmem with hmem | hmem
    · obtain ⟨q, rest', h1, h2, _⟩ := rowLoopF_mem cfg row.length y 0 1 row seg hmem
      exact ⟨q, rest', h1, h2⟩
    · exact gridLoop_mem cfg (y + 1) rows seg hmem

theorem sum_lengths_of_uniform (W : Nat) :
    ∀ (grid : List (List RGBA)), (∀ row ∈ grid, row.length = W) →
      (grid.map List.length).sum = grid.length * W
  | [], _ => by simp
  | row :: rows, h => by
    simp only [List.map_cons, List.sum_cons, List.length_cons]
    rw [h row (List.mem_cons_self row rows),
      sum_lengths_of_uniform W rows (fun r hr => h r (List.mem_cons_of_mem row hr))]
    ring

/-! ### The character budget: accounting is an over-approximation of the
emitted length -/

theorem resolveTag_some_not_blankcond (cfg : Config) (p : RGBA) (t : String)
    (h : resolveTag cfg p = some t) :
    (isTransparentPix cfg p && decide (cfg.transOpt = .space)) = false := by
  by_contra hb
  rw [Bool.not_eq_false, Bool.and_eq_true, decide_eq_true_eq] at hb
  have : resolveTag cfg p = none := (resolveTag_eq_none_iff cfg p).mpr ⟨hb.1, hb.2⟩
  rw [h] at this
  exact Option.noConfusion this

theorem charAddCost_of_blank (cfg : Config) (m : Bool) (p : RGBA)
    (h : resolveTag cfg p = none) :
    charAddCost cfg m (isTransparentPix cfg p) (resolveTag cfg p) = cfg.spaceCount := by
  obtain ⟨hisT, hsp⟩ := (resolveTag_eq_none_iff cfg p).mp h
  cases m <;> simp [charAddCost, hisT, hsp, h]

theorem charAddCost_open_some (cfg : Config) (p : RGBA) (t : String)
    (h : resolveTag cfg p = some t) :
    charAddCost cfg false (isTransparentPix cfg p) (resolveTag cfg p) =
      t.length + 1 + 8 := by
  have hnb := resolveTag_some_not_blankcond cfg p t h
  simp [charAddCost, hnb, h]
  rfl

theorem charSegLoop_len_le (cfg : Config) :
    ∀ (rest : List RGBA) (cc : Nat) (ct : Option String) (cn : Nat)
      (cr : Option RGBA) (pc : Nat),
      1 ≤ pc → cc ≤ cfg.charLimit →
      ((charSegLoop cfg rest cc ct cn cr pc).1).length ≤
        (cfg.charLimit - cc) + (closeRun cfg ct cn pc).length + cfg.fontEnd.length
  | [], cc, ct, cn, cr, pc, hpc, hcc => by
    simp only [charSegLoop, String.length_append]
    omega
  | p :: rest, cc, ct, cn, cr, pc, hpc, hcc => by
    simp only [charSegLoop]
    split
    · split
      · omega
      · simp only [String.length_append]
        omega
    · rename_i hov
      rw [Nat.not_lt] at hov
      split
      · rename_i hmerge
        have ih := charSegLoop_len_le cfg rest
          (cc + charAddCost cfg (mergesInto cfg ct cr p (resolveTag cfg p))
            (isTransparentPix cfg p) (resolveTag cfg p))
          ct (cn + 1) cr (pc + 1) (by omega) (by omega)
        have hadd := charAddCost_pos cfg (mergesInto cfg ct cr p (resolveTag cfg p))
          (isTransparentPix cfg p) (resolveTag cfg p)
        cases ct with
        | some t =>
          rw [closeRun_some_length] at ih
          rw [closeRun_some_length]
          omega
        | none =>
          have htag : resolveTag cfg p = none := by
            rw [mergesInto_none_left] at hmerge
            simpa using hmerge
          obtain ⟨hisT, hsp⟩ := (resolveTag_eq_none_iff cfg p).mp htag
          have haddv := charAddCost_of_blank cfg
            (mergesInto cfg none cr p (resolveTag cfg p)) p htag
          rw [haddv] at ih ⊢
          rw [closeRun_none_length cfg (cn + 1) (pc + 1) (by omega), if_pos hsp,
            Nat.succ_mul] at ih
          rw [closeRun_none_length cfg cn pc hpc, if_pos hsp]
          omega
      · rename_i hmerge
        rw [Bool.not_eq_true] at hmerge
        have ih := charSegLoop_len_le cfg rest
          (cc + charAddCost cfg (mergesInto cfg ct cr p (resolveTag cfg p))
            (isTransparentPix cfg p) (resolveTag cfg p))
          (resolveTag cfg p) 1
          (if (resolveTag cfg p).isSome then some p else none) (pc + 1) (by omega) (by omega)
        rw [hmerge] at ih hov ⊢
        simp only [String.length_append]
        cases htag : resolveTag cfg p with
        | none =>
          obtain ⟨hisT, hsp⟩ := (resolveTag_eq_none_iff cfg p).mp htag
          have haddv := charAddCost_of_blank cfg false p htag
          rw [htag] at ih hov haddv
          rw [haddv] at ih hov ⊢
          rw [closeRun_none_length cfg 1 (pc + 1) (by omega), if_pos hsp, Nat.one_mul] at ih
          omega
        | some t =>
          have haddv := charAddCost_open_some cfg p t htag
          rw [htag] at ih hov haddv
          rw [haddv] at ih hov ⊢
          rw [closeRun_some_length] at ih
          omega

theorem process_char_len_le (cfg : Config) :
    ∀ (rest : List RGBA),
      2 ≤ (process_char_segment_line_safe cfg rest).2 →
      ((process_char_segment_line_safe cfg rest).1).length ≤ cfg.charLimit := by
  intro rest h2
  cases rest with
  | nil =>
    exfalso
    simp [process_char_segment_line_safe, charSegLoop] at h2
  | cons p rest =>
    unfold process_char_segment_line_safe at h2 ⊢
    simp only [charSegLoop, Nat.zero_add] at h2 ⊢
    by_cases hov : cfg.charLimit < cfg.fontTagLen +
      charAddCost cfg (mergesInto cfg none none p (resolveTag cfg p))
        (isTransparentPix cfg p) (resolveTag cfg p)
    · rw [if_pos hov] at h2
      simp at h2
    · rw [if_neg hov] at h2 ⊢
      rw [Nat.not_lt] at hov
      have hft : cfg.fontTagLen = cfg.fontStart.length + cfg.fontEnd.length := rfl
      by_cases hm : mergesInto cfg none none p (resolveTag cfg p) = true
      · rw [if_pos hm] at h2 ⊢
        have htag : resolveTag cfg p = none := by
          rw [mergesInto_none_left] at hm
          simpa using hm
        obtain ⟨hisT, hsp⟩ := (resolveTag_eq_none_iff cfg p).mp htag
        have haddv := charAddCost_of_blank cfg
          (mergesInto cfg none none p (resolveTag cfg p)) p htag
        have ih := charSegLoop_len_le cfg rest
          (cfg.fontTagLen + charAddCost cfg
            (mergesInto cfg none none p (resolveTag cfg p))
            (isTransparentPix cfg p) (resolveTag cfg p))
          none 1 none 1 (by omega) (by omega)
        rw [closeRun_none_length cfg 1 1 (by omega), if_pos hsp, Nat.one_mul, haddv] at ih
        rw [haddv] at hov ⊢
        simp only [String.length_append]
        omega
      · rw [if_neg hm] at h2 ⊢
        rw [Bool.not_eq_true] at hm
        have ih := charSegLoop_len_le cfg rest
          (cfg.fontTagLen + charAddCost cfg
            (mergesInto cfg none none p (resolveTag cfg p))
            (isTransparentPix cfg p) (resolveTag cfg p))
          (resolveTag cfg p) 1
          (if (resolveTag cfg p).isSome then some p else none) 1 (by omega) (by omega)
        simp only [String.length_append, closeRun_gate_zero, String.length_empty]
        rw [hm] at ih hov ⊢
        cases htag : resolveTag cfg p with
        | none =>
          obtain ⟨hisT, hsp⟩ := (resolveTag_eq_none_iff cfg p).mp htag
          have haddv := charAddCost_of_blank cfg false p htag
          rw [htag] at ih hov haddv
          rw [closeRun_none_length cfg 1 1 (by omega), if_pos hsp, Nat.one_mul] at ih
          rw [haddv] at ih hov ⊢
          omega
        | some t =>
          have haddv := charAddCost_open_some cfg p t htag
          rw [htag] at ih hov haddv
          rw [closeRun_some_length] at ih
          rw [haddv] at ih hov ⊢
          omega

/-! ### Noninterference of below-threshold RGB values (space policy, no
similarity merging) -/

theorem sameVisible_isT (cfg : Config) {p q : RGBA} (h : SameVisible cfg p q) :
    isTransparentPix cfg p = isTransparentPix cfg q := by
  simp [isTransparentPix, h.1]

theorem sameVisible_tag (cfg : Config) (hsp : cfg.transOpt = .space)
    (hha : cfg.hasAlpha = true) {p q : RGBA} (h : SameVisible cfg p q) :
    resolveTag cfg p = resolveTag cfg q := by
  by_cases ht : isTransparentPix cfg p = true
  · have ht2 : isTransparentPix cfg q = true := by
      rw [← sameVisible_isT cfg h]
      exact ht
    simp [resolveTag, ht, ht2, hsp]
  · have hge : cfg.alphaThreshold ≤ p.a := by
      simp [isTransparentPix, hha] at ht
      omega
    rw [h.2 hge]

theorem sameVisible_eq_of_tag_some (cfg : Config) (hsp : cfg.transOpt = .space)
    (hha : cfg.hasAlpha = true) {p q : RGBA} (h : SameVisible cfg p q)
    {t : String} (htag : resolveTag cfg q = some t) : p = q := by
  apply h.2
  by_contra hlt
  rw [Nat.not_le] at hlt
  have hq : isTransparentPix cfg q = true := by
    rw [← sameVisible_isT cfg h]
    simp [isTransparentPix, hha, hlt]
  have : resolveTag cfg q = none := (resolveTag_eq_none_iff cfg q).mpr ⟨hq, hsp⟩
  rw [htag] at this
  exact Option.noConfusion this

theorem charSegLoop_congr (cfg : Config) (hms : cfg.mergeSimilar = false)
    (hsp : cfg.transOpt = .space) (hha : cfg.hasAlpha = true) :
    ∀ {l1 l2 : List RGBA}, List.Forall₂ (SameVisible cfg) l1 l2 →
      ∀ (cc : Nat) (ct : Option String) (cn : Nat) (cr : Option RGBA) (pc : Nat),
        charSegLoop cfg l1 cc ct cn cr pc = charSegLoop cfg l2 cc ct cn cr pc := by
  intro l1 l2 hrel
  induction hrel with
  | nil => intro cc ct cn cr pc; rfl
  | @cons p q l1' l2' hpq hrest ih =>
    intro cc ct cn cr pc
    have htag := sameVisible_tag cfg hsp hha hpq
    have hisT := sameVisible_isT cfg hpq
    have hmg : mergesInto cfg ct cr p (resolveTag cfg q) =
        mergesInto cfg ct cr q (resolveTag cfg q) := by
      rw [mergesInto_not_similar cfg hms, mergesInto_not_similar cfg hms]
    simp only [charSegLoop]
    rw [htag, hisT, hmg]
    split
    · rfl
    · split
      · exact ih _ ct (cn + 1) cr (pc + 1)
      · cases htag2 : resolveTag cfg q with
        | none =>
          simp only [htag2, Option.isSome_none, Bool.false_eq_true, if_false]
          rw [ih _ none 1 none (pc + 1)]
        | some t =>
          have hpq2 : p = q := sameVisible_eq_of_tag_some cfg hsp hha hpq htag2
          rw [hpq2, ih]

theorem pixelSegLoop_congr (cfg : Config) (hms : cfg.mergeSimilar = false)
    (hsp : cfg.transOpt = .space) (hha : cfg.hasAlpha = true) :
    ∀ {l1 l2 : List RGBA}, List.Forall₂ (SameVisible cfg) l1 l2 →
      ∀ (cnt : Nat) (ct : Option String) (cn : Nat) (cr : Option RGBA),
        pixelSegLoop cfg l1 cnt ct cn cr = pixelSegLoop cfg l2 cnt ct cn cr := by
  intro l1 l2 hrel
  induction hrel with
  | nil => intro cnt ct cn cr; rfl
  | @cons p q l1' l2' hpq hrest ih =>
    intro cnt ct cn cr
    have htag := sameVisible_tag cfg hsp hha hpq
    have hmg : mergesInto cfg ct cr p (resolveTag cfg q) =
        mergesInto cfg ct cr q (resolveTag cfg q) := by
      rw [mergesInto_not_similar cfg hms, mergesInto_not_similar cfg hms]
    simp only [pixelSegLoop]
    rw [htag, hmg]
    split
    · split
      · exact ih (cnt + 1) ct (cn + 1) cr
      · cases htag2 : resolveTag cfg q with
        | none =>
          simp only [htag2, Option.isSome_none, Bool.false_eq_true, if_false]
          rw [ih (cnt + 1) none 1 none]
        | some t =>
          have hpq2 : p = q := sameVisible_eq_of_tag_some cfg hsp hha hpq htag2
          rw [hpq2, ih]
    · rfl

theorem buildSeg_congr (cfg : Config) (hms : cfg.mergeSimilar = false)
    (hsp : cfg.transOpt = .space) (hha : cfg.hasAlpha = true)
    {l1 l2 : List RGBA} (hrel : List.Forall₂ (SameVisible cfg) l1 l2) :
    buildSeg cfg l1 = buildSeg cfg l2 := by
  cases h : cfg.segmentRule with
  | byPixel =>
    simp only [buildSeg, h, process_pixel_segment]
    rw [pixelSegLoop_congr cfg hms hsp hha hrel 0 none 0 none]
  | byChar =>
    simp only [buildSeg, h, process_char_segment_line_safe]
    rw [charSegLoop_congr cfg hms hsp hha hrel cfg.fontTagLen none 0 none 0]

theorem rowLoopF_congr (cfg : Config) (hms : cfg.mergeSimilar = false)
    (hsp : cfg.transOpt = .space) (hha : cfg.hasAlpha = true) :
    ∀ (fuel y x k : Nat) {l1 l2 : List RGBA},
      List.Forall₂ (SameVisible cfg) l1 l2 →
      rowLoopF cfg fuel y x k l1 = rowLoopF cfg fuel y x k l2
  | fuel, y, x, k, l1, l2, hrel => by
    cases hrel with
    | nil => rfl
    | @cons p q l1' l2' hpq hrest =>
      cases fuel with
      | zero => rfl
      | succ fuel =>
        have hres := buildSeg_congr cfg hms hsp hha (List.Forall₂.cons hpq hrest)
        have hdrop := List.forall₂_drop (buildSeg cfg (q :: l2')).2
          (List.Forall₂.cons hpq hrest)
        have hrec := rowLoopF_congr cfg hms hsp hha fuel y
          (x + (buildSeg cfg (q :: l2')).2) (k + 1) hdrop
        simp only [rowLoopF, hres, hrec]

theorem gridLoop_congr (cfg : Config) (hms : cfg.mergeSimilar = false)
    (hsp : cfg.transOpt = .space) (hha : cfg.hasAlpha = true) :
    ∀ (y : Nat) {g1 g2 : List (List RGBA)},
      List.Forall₂ (List.Forall₂ (SameVisible cfg)) g1 g2 →
      gridLoop cfg y g1 = gridLoop cfg y g2
  | y, g1, g2, hrel => by
    cases hrel with
    | nil => rfl
    | @cons row1 row2 rows1 rows2 hrow hrows =>
      have hlen : row1.length = row2.length := hrow.length_eq
      have h1 : processRow cfg y row1 = processRow cfg y row2 := by
        unfold processRow
        rw [hlen, rowLoopF_congr cfg hms hsp hha row2.length y 0 1 hrow]
      simp only [gridLoop, h1, gridLoop_congr cfg hms hsp hha (y + 1) hrows]

/-! ### The preview write of the custom-background branch is never
transparent -/

theorem customPreviewColor_ne_transparent (cfg : Config) :
    ∀ x y z : Nat, customPreviewColor cfg ≠ PreviewWrite.rgba x y z 0 := by
  intro x y z
  unfold customPreviewColor
  split
  · split <;> simp
  · simp

/-! ## The claims -/

/-- Claim C1: for every pixel buffer of width `W ≥ 1` and height `H ≥ 1` and
every configuration, a successful encoding pass reports a
`total_processed_pixels` (the sum over all emitted segments of their pixel
counts) equal to `W * H`, under both segmentation rules. -/
theorem C1_coverage_total (cfg : Config) (grid : List (List RGBA)) (W H : Nat)
    (hW : 1 ≤ W) (hH : 1 ≤ H) (hlen : grid.length = H)
    (hrows : ∀ row ∈ grid, row.length = W) :
    (encodeGrid cfg grid).total = W * H := by
  unfold encodeGrid
  simp only []
  rw [gridLoop_sum cfg 1 grid, sum_lengths_of_uniform W grid hrows, hlen, Nat.mul_comm]

/-- Witness for C1 on a 1×1 buffer. -/
theorem C1_coverage_total_witness :
    (encodeGrid baseCfg [[pixRed]]).total = 1 * 1 :=
  C1_coverage_total baseCfg [[pixRed]] 1 1 (le_refl 1) (le_refl 1) rfl
    (by
      intro row hr
      simp only [List.mem_singleton] at hr
      rw [hr]
      rfl)

/-- Counterexample to claim C2 as stated: with similar-color merging on, a
`Blank` token (here the below-threshold pixel `pixC2b` under the
space-replacement policy) does merge into the open `ColorTag` run opened by
`pixC2a`, and the whole pass renders it as a filler glyph inside that color
run instead of as a space. -/
theorem C2_blank_merge_counterexample :
    resolveTag cfgC2 pixC2b = none ∧
    mergesInto cfgC2 (some "<color=#00000080>") (some pixC2a) pixC2b
      (resolveTag cfgC2 pixC2b) = true ∧
    encodeGrid cfgC2 [[pixC2a, pixC2b]] =
      { segments := [{ row := 1, ordinal := 1, startX := 0, pixelCount := 2,
                       text := "<color=#00000080>██</color>" }],
        total := 2 } :=
  ⟨rfl, rfl, rfl⟩

/-- Claim C2 as amended: a `ColorTag` token never merges into an open
`Blank` run (so a run opened by a blank stays blank), and with
`mergeSimilar` disabled runs merge only on exactly equal tokens, so every
run is homogeneous; but with `mergeSimilar` enabled a `Blank` token can
merge into an open `ColorTag` run, as the counterexample shows. -/
theorem C2_run_homogeneity_amended (cfg : Config) (cr : Option RGBA)
    (p : RGBA) (t : Option String) :
    mergesInto cfg none cr p t = (t == none) ∧
    (cfg.mergeSimilar = false →
      ∀ ct : Option String, mergesInto cfg ct cr p t = (t == ct)) :=
  ⟨mergesInto_none_left cfg cr p t,
    fun hms ct => mergesInto_not_similar cfg hms ct cr p t⟩

/-- Witness for the amended C2: with merging disabled the same blank pixel
does not join the open color run. -/
theorem C2_run_homogeneity_amended_witness :
    mergesInto baseCfg (some "<color=#00000080>") (some pixC2a) pixC2b
      (resolveTag baseCfg pixC2b) =
      (resolveTag baseCfg pixC2b == some "<color=#00000080>") :=
  (C2_run_homogeneity_amended baseCfg (some pixC2a) pixC2b
    (resolveTag baseCfg pixC2b)).2 rfl (some "<color=#00000080>")

/-- Claim C3: under the `ByCharLength` rule, every emitted segment whose
pixel count is at least 2 has text (size-tag wrapper included) of length at
most `char_limit`; only a forced single-pixel segment may exceed it. -/
theorem C3_char_budget (cfg : Config) (grid : List (List RGBA))
    (hrule : cfg.segmentRule = .byChar) :
    (encodeGrid cfg grid).segments.all (charBudgetOk cfg) = true := by
  rw [List.all_eq_true]
  intro seg hmem
  have hmem2 : seg ∈ gridLoop cfg 1 grid := by simpa [encodeGrid] using hmem
  obtain ⟨q, rest', htext, hcount⟩ := gridLoop_mem cfg 1 grid seg hmem2
  simp only [buildSeg, hrule] at htext hcount
  by_cases hpc : seg.pixelCount ≤ 1
  · simp [charBudgetOk, hpc]
  · have hlen : seg.text.length ≤ cfg.charLimit := by
      rw [htext]
      exact process_char_len_le cfg (q :: rest') (by omega)
    simp [charBudgetOk, hlen]

/-- Witness for C3 on a 1×2 red buffer under the char rule. -/
theorem C3_char_budget_witness :
    (encodeGrid cfgC3 [[pixRed, pixRed]]).segments.all (charBudgetOk cfgC3) = true :=
  C3_char_budget cfgC3 [[pixRed, pixRed]] rfl

/-- Counterexample to claim C4 as stated: a dropped-alpha pixel with alpha
exactly equal to the threshold (markup tag is RGB-only, hence opaque) is
written into the preview with its original alpha 128, not 255 — the
forced-opaque comparison `a > alpha_threshold` is strict. -/
theorem C4_preview_opaque_counterexample :
    update_preview cfgC4 10 20 30 128 none = PreviewWrite.rgba 10 20 30 128 ∧
    get_original_color_tag cfgC4 10 20 30 128 = "<color=#0a141e>" ∧
    cfgC4.alphaThreshold = 128 ∧ cfgC4.keepAboveAlpha = false :=
  ⟨rfl, rfl, rfl, rfl⟩

/-- Claim C4 as amended: with `keepAboveThresholdAlpha = false` and
`mergeSimilar` disabled, every pixel whose alpha is strictly above
`alphaThreshold` and below 255 gets a fully opaque preview entry; a pixel
with alpha exactly equal to the threshold keeps its own alpha (and with
`mergeSimilar` the run representative's alpha is consulted instead). -/
theorem C4_preview_opaque_amended (cfg : Config) (r g b a : Nat)
    (ccr : Option RGBA) (hha : cfg.hasAlpha = true)
    (hka : cfg.keepAboveAlpha = false) (hms : cfg.mergeSimilar = false)
    (hlt : cfg.alphaThreshold < a) (hub : a < 255) :
    writtenAlpha (update_preview cfg r g b a ccr) = some 255 := by
  have h1 : ¬ (a = 0) := by omega
  have h2 : ¬ (a < cfg.alphaThreshold) := by omega
  simp [update_preview, hha, hka, hms, h1, h2, hlt, writtenAlpha]

/-- Witness for the amended C4 at alpha 200. -/
theorem C4_preview_opaque_amended_witness :
    writtenAlpha (update_preview cfgC4 1 2 3 200 none) = some 255 :=
  C4_preview_opaque_amended cfgC4 1 2 3 200 none rfl rfl rfl (by decide) (by decide)

/-- Counterexample to claim C5 as stated: under the `CustomColor` policy a
fully transparent pixel (alpha 0, below the threshold 128) is encoded in
the markup with the custom color tag, yet the preview writes a fully
transparent entry for it, not the custom color. -/
theorem C5_custom_preview_counterexample :
    update_preview cfgC5 7 8 9 0 none = PreviewWrite.rgba 7 8 9 0 ∧
    resolveTag cfgC5 ⟨7, 8, 9, 0⟩ = some "<color=#888888>" :=
  ⟨rfl, rfl⟩

/-- Claim C5 as amended: under the `CustomColor` policy every
below-threshold pixel with alpha strictly positive gets the custom
background color written into the preview (the same quantization branch the
markup uses), and that write is never a transparent pixel; only an alpha-0
pixel is written fully transparent. -/
theorem C5_custom_preview_amended (cfg : Config) (r g b a : Nat)
    (ccr : Option RGBA) (hha : cfg.hasAlpha = true)
    (hopt : cfg.transOpt = .custom) (h0 : 0 < a)
    (hlt : a < cfg.alphaThreshold) :
    update_preview cfg r g b a ccr = customPreviewColor cfg ∧
    ∀ x y z : Nat, customPreviewColor cfg ≠ PreviewWrite.rgba x y z 0 := by
  constructor
  · have h1 : ¬ (a = 0) := by omega
    have h2 : ¬ (cfg.alphaThreshold < a) := by omega
    simp [update_preview, hha, hopt, h1, h2, hlt]
  · exact customPreviewColor_ne_transparent cfg

/-- Witness for the amended C5 at alpha 5. -/
theorem C5_custom_preview_amended_witness :
    update_preview cfgC5 7 8 9 5 none = customPreviewColor cfgC5 :=
  (C5_custom_preview_amended cfgC5 7 8 9 5 none rfl rfl (by decide) (by decide)).1

/-- Claim C6: every emitted segment carries the row it was built from, the
segments of one row cover exactly the columns `0 .. W-1` in order with no
gaps or overlaps, and their ordinals are `1, 2, …` in emission order. -/
theorem C6_row_containment (cfg : Config) (y : Nat) (row : List RGBA) :
    rowsOf (processRow cfg y row) =
      List.replicate (processRow cfg y row).length y ∧
    coveredCells (processRow cfg y row) = List.range row.length ∧
    ordinalsOf (processRow cfg y row) =
      List.range' 1 (processRow cfg y row).length := by
  refine ⟨rowLoopF_rows cfg row.length y 0 1 row, ?_,
    rowLoopF_ordinals cfg row.length y 0 1 row (le_refl _)⟩
  rw [List.range_eq_range']
  exact rowLoopF_covered cfg row.length y 0 1 row (le_refl _)

/-- Claim C7: under the `ByPixelCount` rule every emitted segment has pixel
count at most `pixel_limit`, with no exception. -/
theorem C7_pixel_cap (cfg : Config) (grid : List (List RGBA))
    (hrule : cfg.segmentRule = .byPixel) :
    (encodeGrid cfg grid).segments.all (pixelBudgetOk cfg) = true := by
  rw [List.all_eq_true]
  intro seg hmem
  have hmem2 : seg ∈ gridLoop cfg 1 grid := by simpa [encodeGrid] using hmem
  obtain ⟨q, rest', htext, hcount⟩ := gridLoop_mem cfg 1 grid seg hmem2
  simp only [buildSeg, hrule] at hcount
  have hle : (process_pixel_segment cfg (q :: rest')).2 ≤ cfg.pixelLimit := by
    simp only [process_pixel_segment]
    exact pixelSegLoop_snd_le_limit cfg (q :: rest') 0 none 0 none (Nat.zero_le _)
  simp only [pixelBudgetOk, decide_eq_true_eq, hcount]
  exact hle

/-- Witness for C7 with pixel limit 2 on a 1×3 buffer. -/
theorem C7_pixel_cap_witness :
    (encodeGrid cfgC7 [[pixRed, pixRed, pixRed]]).segments.all
      (pixelBudgetOk cfgC7) = true :=
  C7_pixel_cap cfgC7 [[pixRed, pixRed, pixRed]] rfl

/-- Claim C8: the configured segment-size inputs are clamped to at least 1,
and every segment-builder invocation made with pixels remaining in the
current row consumes at least one and at most all of the remaining pixels,
so the per-row and whole-image loops are well founded. -/
theorem C8_progress (cfg : Config) (p : RGBA) (rest : List RGBA) :
    1 ≤ cfg.pixelLimit ∧ 1 ≤ cfg.charLimit ∧ 1 ≤ cfg.spaceCount ∧
    1 ≤ (buildSeg cfg (p :: rest)).2 ∧
    (buildSeg cfg (p :: rest)).2 ≤ (p :: rest).length :=
  ⟨cfg.pixelLimit_pos, cfg.charLimit_pos, cfg.spaceCount_pos,
    buildSeg_snd_pos cfg p rest, buildSeg_snd_le cfg (p :: rest)⟩

/-- Claim C9: with `minimal_color` on but a custom color string that is not
exactly 7 characters long, the custom tag passes the string through
unchanged — `'<color=' + custom_color + '>'` — with no quantization. -/
theorem C9_custom_passthrough (cfg : Config) (hmin : cfg.minimalColor = true)
    (hlen : cfg.customColor.length ≠ 7) :
    get_custom_color_tag cfg = "<color=" ++ cfg.customColor ++ ">" := by
  simp [get_custom_color_tag, hmin, hlen]

/-- Witness for C9 with the 4-character custom color `#abc`. -/
theorem C9_custom_passthrough_witness :
    get_custom_color_tag cfgC9 = "<color=" ++ cfgC9.customColor ++ ">" :=
  C9_custom_passthrough cfgC9 rfl (by decide)

/-- Claim C10: with `mergeSimilar` disabled and the space-replacement
policy, the emitted segment list does not depend on the RGB values of
below-threshold pixels: two buffers that agree on all alphas and on every
at-or-above-threshold pixel encode to identical results. -/
theorem C10_blank_rgb_noninterference (cfg : Config)
    (g1 g2 : List (List RGBA)) (hms : cfg.mergeSimilar = false)
    (hopt : cfg.transOpt = .space) (hha : cfg.hasAlpha = true)
    (hrel : List.Forall₂ (List.Forall₂ (SameVisible cfg)) g1 g2) :
    encodeGrid cfg g1 = encodeGrid cfg g2 := by
  unfold encodeGrid
  rw [gridLoop_congr cfg hms hopt hha 1 hrel]

/-- Witness for C10: two fully transparent single-pixel buffers with
different RGB values encode identically. -/
theorem C10_blank_rgb_noninterference_witness :
    encodeGrid baseCfg [[pixC10a]] = encodeGrid baseCfg [[pixC10b]] :=
  C10_blank_rgb_noninterference baseCfg [[pixC10a]] [[pixC10b]] rfl rfl rfl
    (List.Forall₂.cons
      (List.Forall₂.cons ⟨rfl, fun h => absurd h (by decide)⟩ List.Forall₂.nil)
      List.Forall₂.nil)

end ImgRT
